import Mathlib

/-!
Verification of the rate-limited service (src/main.rs) against its
natural-language specification.

The embedding models:
- the sha256 crate's `digest` function (FIPS 180-4 SHA-256, lowercase hex
  over the UTF-8 bytes of the input string), used by
  `RateLimiter::log_usage` to derive the store key;
- the `DashMap<String, (i32, DateTime<Utc>)>` usage counter as an
  association list from key strings to `(count, refresh_time)` pairs;
- `RateLimiter::log_usage` itself, with `i32` subtraction modelled as
  two's-complement wrapping (`sub32`, release-build semantics) and
  timestamps/durations as unbounded integers (chrono timestamps stay far
  from their `i64` bounds in every scenario considered here);
- the clock value `Utc::now()` read at the top of `log_usage` is passed
  in as the explicit parameter `now`, and the evolving map is passed in
  and returned explicitly.
-/

namespace RateLimitedService

namespace Sha256

/-- UTF-8 encoding of a single Unicode code point. -/
def utf8Bytes (c : Nat) : List Nat :=
  if c < 128 then [c]
  else if c < 2048 then [192 + c / 64, 128 + c % 64]
  else if c < 65536 then [224 + c / 4096, 128 + c / 64 % 64, 128 + c % 64]
  else [240 + c / 262144, 128 + c / 4096 % 64, 128 + c / 64 % 64, 128 + c % 64]

/-- UTF-8 byte sequence of a string. -/
def strBytes (s : String) : List Nat := s.data.flatMap (fun c => utf8Bytes c.toNat)

/-- Right rotation of a 32-bit word. -/
def rotr (n x : Nat) : Nat := ((x >>> n) ||| (x <<< (32 - n))) % 4294967296

def bigS0 (x : Nat) : Nat := rotr 2 x ^^^ rotr 13 x ^^^ rotr 22 x

def bigS1 (x : Nat) : Nat := rotr 6 x ^^^ rotr 11 x ^^^ rotr 25 x

def smallS0 (x : Nat) : Nat := rotr 7 x ^^^ rotr 18 x ^^^ (x >>> 3)

def smallS1 (x : Nat) : Nat := rotr 17 x ^^^ rotr 19 x ^^^ (x >>> 10)

def ch (e f g : Nat) : Nat := (e &&& f) ^^^ ((e ^^^ 4294967295) &&& g)

def maj (a b c : Nat) : Nat := (a &&& b) ^^^ (a &&& c) ^^^ (b &&& c)

/-- The SHA-256 round constants. -/
def K : List Nat :=
-- the 64 round constants of FIPS 180-4 section 4.2.2, in decimal
  [1116352408, 1899447441, 3049323471, 3921009573, 961987163, 1508970993,
   2453635748, 2870763221, 3624381080, 310598401, 607225278, 1426881987,
   1925078388, 2162078206, 2614888103, 3248222580, 3835390401, 4022224774,
   264347078, 604807628, 770255983, 1249150122, 1555081692, 1996064986,
   2554220882, 2821834349, 2952996808, 3210313671, 3336571891, 3584528711,
   113926993, 338241895, 666307205, 773529912, 1294757372, 1396182291,
   1695183700, 1986661051, 2177026350, 2456956037, 2730485921, 2820302411,
   3259730800, 3345764771, 3516065817, 3600352804, 4094571909, 275423344,
   430227734, 506948616, 659060556, 883997877, 958139571, 1322822218,
   1537002063, 1747873779, 1955562222, 2024104815, 2227730452, 2361852424,
   2428436474, 2756734187, 3204031479, 3329325298]

/-- Big-endian byte decomposition (`n` bytes) of a natural number. -/
def beBytes : Nat → Nat → List Nat
  | 0, _ => []
  | n + 1, v => beBytes n (v / 256) ++ [v % 256]

/-- SHA-256 padding: append 0x80, zero bytes, and the 64-bit big-endian
bit length, reaching a multiple of 64 bytes. -/
def pad (msg : List Nat) : List Nat :=
  msg ++ [128] ++ List.replicate ((64 - (msg.length + 9) % 64) % 64) 0 ++ beBytes 8 (8 * msg.length)

/-- Big-endian packing of bytes into 32-bit words. -/
def toWords : List Nat → List Nat
  | a :: b :: c :: d :: rest => (((a * 256 + b) * 256 + c) * 256 + d) :: toWords rest
  | _ => []

/-- One step of the message-schedule extension. -/
def extendStep (w : List Nat) : List Nat :=
  let n := w.length
  w ++ [(w.getD (n - 16) 0 + smallS0 (w.getD (n - 15) 0) + w.getD (n - 7) 0
         + smallS1 (w.getD (n - 2) 0)) % 4294967296]

/-- Extend the 16 block words to the 64 schedule words. -/
def schedule (w16 : List Nat) : List Nat :=
  (List.range 48).foldl (fun acc _ => extendStep acc) w16

structure HashState where
  a : Nat
  b : Nat
  c : Nat
  d : Nat
  e : Nat
  f : Nat
  g : Nat
  h : Nat

/-- One SHA-256 compression round. -/
def round (st : HashState) (ki wi : Nat) : HashState :=
  let t1 := (st.h + bigS1 st.e + ch st.e st.f st.g + ki + wi) % 4294967296
  let t2 := (bigS0 st.a + maj st.a st.b st.c) % 4294967296
  ⟨(t1 + t2) % 4294967296, st.a, st.b, st.c, (st.d + t1) % 4294967296, st.e, st.f, st.g⟩

/-- The SHA-256 initial hash value. -/
def initH : HashState :=
  ⟨1779033703, 3144134277, 1013904242, 2773480762, 1359893119, 2600822924, 528734635, 1541459225⟩

/-- Compress one 64-byte block into the running hash state. -/
def processBlock (st : HashState) (block : List Nat) : HashState :=
  let r := (K.zip (schedule (toWords block))).foldl (fun s p => round s p.1 p.2) st
  ⟨(st.a + r.a) % 4294967296, (st.b + r.b) % 4294967296, (st.c + r.c) % 4294967296,
   (st.d + r.d) % 4294967296, (st.e + r.e) % 4294967296, (st.f + r.f) % 4294967296,
   (st.g + r.g) % 4294967296, (st.h + r.h) % 4294967296⟩

/-- Split a byte list into `n` chunks of 64 bytes. -/
def chunksN : Nat → List Nat → List (List Nat)
  | 0, _ => []
  | n + 1, l => l.take 64 :: chunksN n (l.drop 64)

/-- Lowercase hexadecimal digit. -/
def hexDigit (n : Nat) : Char := if n < 10 then Char.ofNat (48 + n) else Char.ofNat (87 + n)

/-- Lowercase hexadecimal rendering of one 32-bit word. -/
def wordHex (w : Nat) : List Char :=
  (beBytes 4 w).flatMap (fun b => [hexDigit (b / 16), hexDigit (b % 16)])

/-- The SHA-256 hash state of a byte message. -/
def digestBytes (msg : List Nat) : HashState :=
  let p := pad msg
  (chunksN (p.length / 64) p).foldl processBlock initH

/-- The sha256 crate's `digest`: lowercase hex digest of a string's UTF-8
bytes (checked against the FIPS 180-4 test vectors). -/
def digest (s : String) : String :=
  let h := digestBytes (strBytes s)
  ⟨[h.a, h.b, h.c, h.d, h.e, h.f, h.g, h.h].flatMap wordHex⟩

end Sha256

/-- Two's-complement wrap into the `i32` range. -/
def wrap32 (n : Int) : Int := (n + 2147483648) % 4294967296 - 2147483648

/-- `i32` subtraction (release-build wrapping semantics of `a - b`). -/
def sub32 (a b : Int) : Int := wrap32 (a - b)

/-- The `DashMap<String, (i32, DateTime<Utc>)>` usage counter, as an
association list from derived key to `(count, refresh_time)`. -/
def Store : Type := List (String × (Int × Int))

/-- Map lookup (`DashMap::get_mut` read). -/
def lookupStore : Store → String → Option (Int × Int)
  | [], _ => none
  | (k, v) :: rest, key => if k = key then some v else lookupStore rest key

/-- Map write: overwrite the entry for `key`, or add one
(`*pair = v` through a `get_mut` guard, and `DashMap::insert`). -/
def setStore : Store → String → (Int × Int) → Store
  | [], key, v => [(key, v)]
  | (k, w) :: rest, key, v => if k = key then (key, v) :: rest else (k, w) :: setStore rest key v

/-- `RateLimit { limit: i32, duration: Duration }`; the duration is in
seconds. -/
structure RateLimit where
  limit : Int
  duration : Int

/-- `RateLimit::new`: duration defaults to 1 minute (60 s). -/
def RateLimit.new (limit : Int) : RateLimit := ⟨limit, 60⟩

/-- `RateLimitedError { time_when_refreshed: DateTime<Utc> }`. -/
structure RateLimitedError where
  time_when_refreshed : Int

/-- The derived key: first line of `RateLimiter::log_usage`,
`sha256::digest(route.to_string() + &bearer_token)`. -/
def hashedKey (route bearer_token : String) : String :=
  Sha256.digest (route ++ bearer_token)

/-- `RateLimiter::log_usage`, with the clock value `Utc::now()` passed in
as `now` and the usage counter passed in and returned explicitly. -/
def log_usage (store : Store) (route : String) (bearer_token : String)
    (rate_limit : RateLimit) (now : Int) :
    Except RateLimitedError (Int × Int) × Store :=
  let hashed_key := hashedKey route bearer_token
  match lookupStore store hashed_key with
  | some (count, refresh_time) =>
    if refresh_time < now then
      -- rate limiting interval has passed and needs to be refreshed
      (Except.ok (sub32 rate_limit.limit 1, now + rate_limit.duration),
       setStore store hashed_key (sub32 rate_limit.limit 1, now + rate_limit.duration))
    else if count > 0 then
      -- the interval is not refreshed, but this request counts against the allowance
      (Except.ok (sub32 count 1, refresh_time),
       setStore store hashed_key (sub32 count 1, refresh_time))
    else
      -- rate limit has been reached
      (Except.error ⟨refresh_time⟩, store)
  | none =>
    -- token / endpoint is used for the first time: add it to the usage counter
    (Except.ok (sub32 rate_limit.limit 1, now + rate_limit.duration),
     setStore store hashed_key (sub32 rate_limit.limit 1, now + rate_limit.duration))

def POST_VAULT_ROUTE : String := "POST /vault"

def GET_VAULT_ITEMS_ROUTE : String := "GET /vault/items"

def PUT_VAULT_ITEM_ROUTE : String := "PUT /vault/items/<:id>"

def POST_VAULT_RATE_LIMIT : Int := 3

def GET_VAULT_ITEMS_RATE_LIMIT : Int := 1200

def PUT_VAULT_ITEM_RATE_LIMIT : Int := 60

/-- `put_vault_item`'s rate-limiter call: the route string passed to
`log_usage` is `PUT_VAULT_ITEM_ROUTE.to_owned() + &id`. -/
def put_vault_item (store : Store) (bearer_token id : String) (now : Int) :
    Except RateLimitedError (Int × Int) × Store :=
  log_usage store (PUT_VAULT_ITEM_ROUTE ++ id) bearer_token
    (RateLimit.new PUT_VAULT_ITEM_RATE_LIMIT) now

/-- A sequence of `n` consecutive `log_usage` calls for one
(route, token) pair, all at time `now`, threading the store and
collecting the results in order. -/
def callSeq (store : Store) (route bearer_token : String) (rate_limit : RateLimit)
    (now : Int) : Nat → List (Except RateLimitedError (Int × Int)) × Store
  | 0 => ([], store)
  | n + 1 =>
    let r := log_usage store route bearer_token rate_limit now
    let rest := callSeq r.2 route bearer_token rate_limit now n
    (r.1 :: rest.1, rest.2)

/-- A sequence of `log_usage` calls for one (route, token) pair at the
given list of times, threading the store. -/
def runCalls (route bearer_token : String) (rate_limit : RateLimit) :
    Store → List Int → Store
  | s, [] => s
  | s, t :: ts => runCalls route bearer_token rate_limit (log_usage s route bearer_token rate_limit t).2 ts

/-! Basic lemmas about the store and the wrapped arithmetic. -/

theorem wrap32_eq_self (n : Int) (h1 : -2147483648 ≤ n) (h2 : n < 2147483648) :
    wrap32 n = n := by
  unfold wrap32
  omega

theorem sub32_one (a : Int) (h1 : 0 < a) (h2 : a ≤ 2147483647) : sub32 a 1 = a - 1 := by
  unfold sub32
  exact wrap32_eq_self _ (by omega) (by omega)

theorem lookupStore_setStore_self (s : Store) (k : String) (v : Int × Int) :
    lookupStore (setStore s k v) k = some v := by
  induction s with
  | nil => simp [setStore, lookupStore]
  | cons hd tl ih =>
    obtain ⟨hk, hv⟩ := hd
    by_cases h : hk = k
    · simp [setStore, lookupStore, h]
    · simp [setStore, lookupStore, h, ih]

theorem lookupStore_setStore_ne (s : Store) (k k2 : String) (v : Int × Int)
    (h : k2 ≠ k) : lookupStore (setStore s k v) k2 = lookupStore s k2 := by
  induction s with
  | nil => simp [setStore, lookupStore, Ne.symm h]
  | cons hd tl ih =>
    obtain ⟨hk, hv⟩ := hd
    by_cases hh : hk = k
    · subst hh
      simp [setStore, lookupStore, Ne.symm h]
    · simp only [setStore, lookupStore, hh, if_false]
      by_cases hh2 : hk = k2 <;> simp [lookupStore, hh2, ih]

/-! Branch lemmas for `log_usage`, one per branch of the source. -/

theorem log_usage_fresh (s : Store) (route token : String) (rl : RateLimit) (now : Int)
    (h : lookupStore s (hashedKey route token) = none) :
    log_usage s route token rl now =
      (Except.ok (sub32 rl.limit 1, now + rl.duration),
       setStore s (hashedKey route token) (sub32 rl.limit 1, now + rl.duration)) := by
  simp only [log_usage, h]

theorem log_usage_refresh (s : Store) (route token : String) (rl : RateLimit) (now c e : Int)
    (h : lookupStore s (hashedKey route token) = some (c, e)) (he : e < now) :
    log_usage s route token rl now =
      (Except.ok (sub32 rl.limit 1, now + rl.duration),
       setStore s (hashedKey route token) (sub32 rl.limit 1, now + rl.duration)) := by
  simp only [log_usage, h]
  simp [he]

theorem log_usage_decrement (s : Store) (route token : String) (rl : RateLimit) (now c e : Int)
    (h : lookupStore s (hashedKey route token) = some (c, e)) (he : ¬ e < now) (hc : 0 < c) :
    log_usage s route token rl now =
      (Except.ok (sub32 c 1, e), setStore s (hashedKey route token) (sub32 c 1, e)) := by
  simp only [log_usage, h]
  simp [he, hc]

theorem log_usage_deny (s : Store) (route token : String) (rl : RateLimit) (now c e : Int)
    (h : lookupStore s (hashedKey route token) = some (c, e)) (he : ¬ e < now) (hc : ¬ 0 < c) :
    log_usage s route token rl now = (Except.error ⟨e⟩, s) := by
  simp only [log_usage, h]
  simp [he, hc]

/-! Lemmas about sequences of calls. -/

theorem callSeq_zero (s : Store) (route token : String) (rl : RateLimit) (now : Int) :
    callSeq s route token rl now 0 = ([], s) := rfl

theorem callSeq_succ (s : Store) (route token : String) (rl : RateLimit) (now : Int) (n : Nat) :
    callSeq s route token rl now (n + 1)
      = ((log_usage s route token rl now).1
           :: (callSeq (log_usage s route token rl now).2 route token rl now n).1,
         (callSeq (log_usage s route token rl now).2 route token rl now n).2) := rfl

theorem callSeq_one (s : Store) (route token : String) (rl : RateLimit) (now : Int) :
    callSeq s route token rl now 1
      = ([(log_usage s route token rl now).1], (log_usage s route token rl now).2) := rfl

theorem callSeq_add (route token : String) (rl : RateLimit) (now : Int) (m n : Nat) :
    ∀ s : Store,
      (callSeq s route token rl now (m + n)).1
        = (callSeq s route token rl now m).1
          ++ (callSeq (callSeq s route token rl now m).2 route token rl now n).1 ∧
      (callSeq s route token rl now (m + n)).2
        = (callSeq (callSeq s route token rl now m).2 route token rl now n).2 := by
  induction m with
  | zero => intro s; simp [callSeq]
  | succ m ih =>
    intro s
    have heq : m + 1 + n = (m + n) + 1 := by omega
    rw [heq]
    simp only [callSeq, List.cons_append]
    exact ⟨by rw [(ih _).1], by rw [(ih _).2]⟩

theorem map_ok_range_succ (c e : Int) (k : Nat) :
    (List.range (k + 1)).map
        (fun (i : Nat) => (Except.ok (c - 1 - (i : Int), e) : Except RateLimitedError (Int × Int)))
      = Except.ok (c - 1, e)
        :: (List.range k).map (fun (i : Nat) => (Except.ok (c - 1 - 1 - (i : Int), e) : Except RateLimitedError (Int × Int))) := by
  rw [List.range_succ_eq_map, List.map_cons, List.map_map]
  refine congrArg₂ _ (by norm_num) ?_
  apply List.map_congr_left
  intro i _
  simp only [Function.comp_apply]
  have h2 : c - 1 - ((Nat.succ i : Nat) : Int) = c - 1 - 1 - (i : Int) := by push_cast; ring
  rw [h2]

/-- Draining an existing, unexpired record: `k` calls with `k ≤ count`
all take the decrement branch and return `count - 1, count - 2, …`. -/
theorem callSeq_drain (route token : String) (rl : RateLimit) (now : Int) (k : Nat) :
    ∀ (s : Store) (c e : Int),
      lookupStore s (hashedKey route token) = some (c, e) →
      ¬ e < now → (k : Int) ≤ c → c ≤ 2147483647 →
      (callSeq s route token rl now k).1
          = (List.range k).map (fun (i : Nat) => (Except.ok (c - 1 - (i : Int), e) : Except RateLimitedError (Int × Int))) ∧
      lookupStore (callSeq s route token rl now k).2 (hashedKey route token)
          = some (c - (k : Int), e) := by
  induction k with
  | zero =>
    intro s c e hlook _ _ _
    simpa [callSeq] using hlook
  | succ k ih =>
    intro s c e hlook hnot hk hc
    have hc0 : 0 < c := by push_cast at hk; omega
    have hstep := log_usage_decrement s route token rl now c e hlook hnot hc0
    have hsub : sub32 c 1 = c - 1 := sub32_one c hc0 hc
    rw [hsub] at hstep
    have hlook2 : lookupStore (setStore s (hashedKey route token) (c - 1, e))
        (hashedKey route token) = some (c - 1, e) := lookupStore_setStore_self _ _ _
    have hrec := ih (setStore s (hashedKey route token) (c - 1, e)) (c - 1) e hlook2 hnot
      (by push_cast at hk ⊢; omega) (by omega)
    simp only [callSeq, hstep]
    constructor
    · rw [map_ok_range_succ, hrec.1]
    · rw [hrec.2]
      have : c - 1 - (k : Int) = c - ((k + 1 : Nat) : Int) := by push_cast; ring
      rw [this]

/-- Claim C1: for every policy with limit `L ≥ 1` (within the `i32` range)
and window `W ≥ 0`, a burst of `L + 1` calls to `log_usage` for a fresh,
unseen key, all issued at time `t0`, returns Allow for calls `1..L` with
remaining values `L-1, L-2, …, 0` in order (each with window expiry
`t0 + W`), and Deny with retryAfter `t0 + W` for call `L + 1`. -/
theorem c1_fresh_burst (s : Store) (route token : String) (L : Nat) (W t0 : Int)
    (hfresh : lookupStore s (hashedKey route token) = none)
    (hL : 1 ≤ L) (hLmax : (L : Int) ≤ 2147483647) (hW : 0 ≤ W) :
    (callSeq s route token ⟨(L : Int), W⟩ t0 (L + 1)).1
      = (List.range L).map
          (fun (i : Nat) =>
            (Except.ok ((L : Int) - 1 - (i : Int), t0 + W)
              : Except RateLimitedError (Int × Int)))
        ++ [Except.error ⟨t0 + W⟩] := by
  obtain ⟨L', rfl⟩ : ∃ L2, L = L2 + 1 := ⟨L - 1, by omega⟩
  have hsub : sub32 ((L' + 1 : Nat) : Int) 1 = ((L' + 1 : Nat) : Int) - 1 :=
    sub32_one _ (by push_cast; omega) hLmax
  have h1 := log_usage_fresh s route token ⟨((L' + 1 : Nat) : Int), W⟩ t0 hfresh
  rw [hsub] at h1
  -- the first call creates the record with count L - 1 and expiry t0 + W
  rw [callSeq_succ, h1]
  dsimp only
  -- the remaining L calls: L - 1 decrements followed by one denial
  have hsplit := callSeq_add route token ⟨((L' + 1 : Nat) : Int), W⟩ t0 L' 1
    (setStore s (hashedKey route token) (((L' + 1 : Nat) : Int) - 1, t0 + W))
  have hdrain := callSeq_drain route token ⟨((L' + 1 : Nat) : Int), W⟩ t0 L'
    (setStore s (hashedKey route token) (((L' + 1 : Nat) : Int) - 1, t0 + W))
    (((L' + 1 : Nat) : Int) - 1) (t0 + W) (lookupStore_setStore_self _ _ _)
    (by omega) (by push_cast; omega) (by omega)
  have hzero : ((L' + 1 : Nat) : Int) - 1 - (L' : Int) = 0 := by push_cast; ring
  have hdeny := log_usage_deny (callSeq (setStore s (hashedKey route token)
      (((L' + 1 : Nat) : Int) - 1, t0 + W)) route token ⟨((L' + 1 : Nat) : Int), W⟩ t0 L').2
    route token ⟨((L' + 1 : Nat) : Int), W⟩ t0 0 (t0 + W)
    (by rw [hdrain.2, hzero]) (by omega) (by omega)
  rw [(hsplit).1, hdrain.1, callSeq_one, hdeny]
  dsimp only
  rw [map_ok_range_succ]
  simp

/-- Witness for C1 at `L = 3`, `W = 60`, `t0 = 0`, an empty store. -/
theorem c1_fresh_burst_witness :
    lookupStore [] (hashedKey "POST /vault" "tok") = none ∧
    (callSeq [] "POST /vault" "tok" ⟨((3 : Nat) : Int), 60⟩ 0 (3 + 1)).1
      = (List.range 3).map
          (fun (i : Nat) =>
            (Except.ok (((3 : Nat) : Int) - 1 - (i : Int), 0 + 60)
              : Except RateLimitedError (Int × Int)))
        ++ [Except.error ⟨0 + 60⟩] :=
  ⟨rfl, c1_fresh_burst [] "POST /vault" "tok" 3 60 0 rfl (by omega) (by norm_num) (by omega)⟩

/-- Counterexample to claim C2: the code tests `refresh_time < now`
(strict), not `expiry ≤ now`. With limit 1 and window 60, a record
created at `t0 = 0` is exhausted at expiry 60; a call at exactly
`now = t0 + W = 60` is denied (`Err(60)`), not allowed as the claim
states. -/
theorem c2_exact_expiry_counterexample :
    (log_usage (log_usage [] "POST /vault" "tok" (RateLimit.new 1) 0).2
        "POST /vault" "tok" (RateLimit.new 1) 60).1
      = Except.error ⟨60⟩ := rfl

/-- Claim C2 as amended: for every existing record, the window is
treated as elapsed exactly when `record.expiry < now` (strictly), and
the three branches are exhaustive over that split:
when `expiry < now` the record is reset to `limit - 1` with expiry
`now + duration` and the call is allowed (the only case in which a
reset occurs); when `now ≤ expiry` no reset happens — in particular at
the exact expiry instant `now = expiry` (i.e. `now = t0 + W` for a
record created at `t0` with window `W`): a record with `remaining > 0`
is merely decremented with its expiry left unchanged, and an exhausted
record (`remaining ≤ 0`) is denied with retryAfter the old expiry and
the store untouched. -/
theorem c2_strict_elapse (s : Store) (route token : String) (rl : RateLimit)
    (now c e : Int) (hlook : lookupStore s (hashedKey route token) = some (c, e)) :
    (e < now →
      log_usage s route token rl now
        = (Except.ok (sub32 rl.limit 1, now + rl.duration),
           setStore s (hashedKey route token) (sub32 rl.limit 1, now + rl.duration))) ∧
    (now ≤ e → 0 < c →
      log_usage s route token rl now
        = (Except.ok (sub32 c 1, e),
           setStore s (hashedKey route token) (sub32 c 1, e))) ∧
    (now ≤ e → c ≤ 0 → log_usage s route token rl now = (Except.error ⟨e⟩, s)) := by
  refine ⟨?_, ?_, ?_⟩
  · intro he
    exact log_usage_refresh s route token rl now c e hlook he
  · intro hle hc
    exact log_usage_decrement s route token rl now c e hlook (by omega) hc
  · intro hle hc
    exact log_usage_deny s route token rl now c e hlook (by omega) (by omega)

/-- Witness for C2 (amended), exercising all three cases on concrete
records with expiry 60: at the exact expiry instant `now = 60` an
exhausted record is denied and a record with remaining 2 is decremented
keeping expiry 60 (no reset), while at `now = 61 > 60` the record is
reset. -/
theorem c2_strict_elapse_witness :
    lookupStore [(hashedKey "POST /vault" "tok", (0, 60))] (hashedKey "POST /vault" "tok")
        = some (0, 60) ∧
    log_usage [(hashedKey "POST /vault" "tok", (0, 60))] "POST /vault" "tok"
        (RateLimit.new 1) 60
      = (Except.error ⟨60⟩, [(hashedKey "POST /vault" "tok", (0, 60))]) ∧
    log_usage [(hashedKey "POST /vault" "tok", (2, 60))] "POST /vault" "tok"
        (RateLimit.new 3) 60
      = (Except.ok (sub32 2 1, 60),
         setStore [(hashedKey "POST /vault" "tok", (2, 60))]
           (hashedKey "POST /vault" "tok") (sub32 2 1, 60)) ∧
    log_usage [(hashedKey "POST /vault" "tok", (0, 60))] "POST /vault" "tok"
        (RateLimit.new 1) 61
      = (Except.ok (sub32 (RateLimit.new 1).limit 1, 61 + (RateLimit.new 1).duration),
         setStore [(hashedKey "POST /vault" "tok", (0, 60))]
           (hashedKey "POST /vault" "tok")
           (sub32 (RateLimit.new 1).limit 1, 61 + (RateLimit.new 1).duration)) :=
  ⟨by simp [lookupStore],
   (c2_strict_elapse [(hashedKey "POST /vault" "tok", (0, 60))] "POST /vault" "tok"
      (RateLimit.new 1) 60 0 60 (by simp [lookupStore])).2.2 (by omega) (by omega),
   (c2_strict_elapse [(hashedKey "POST /vault" "tok", (2, 60))] "POST /vault" "tok"
      (RateLimit.new 3) 60 2 60 (by simp [lookupStore])).2.1 (by omega) (by omega),
   (c2_strict_elapse [(hashedKey "POST /vault" "tok", (0, 60))] "POST /vault" "tok"
      (RateLimit.new 1) 61 0 60 (by simp [lookupStore])).1 (by omega)⟩

/-- Counterexample to claim C3: `put_vault_item` passes
`PUT_VAULT_ITEM_ROUTE.to_owned() + &id` as the route, so the route
identifier does embed the caller-supplied item id: for ids "1" and "2"
(same credential "tok") the route strings differ and the derived keys
differ, so the two requests do not share one per-endpoint counter. -/
theorem c3_per_resource_counterexample :
    put_vault_item [] "tok" "1" 0
        = log_usage [] (PUT_VAULT_ITEM_ROUTE ++ "1") "tok" (RateLimit.new 60) 0 ∧
    PUT_VAULT_ITEM_ROUTE ++ "1" ≠ PUT_VAULT_ITEM_ROUTE ++ "2" ∧
    hashedKey (PUT_VAULT_ITEM_ROUTE ++ "1") "tok"
        ≠ hashedKey (PUT_VAULT_ITEM_ROUTE ++ "2") "tok" :=
  ⟨rfl, by decide, by decide⟩

theorem string_append_cancel_left (p a b : String) (h : p ++ a = p ++ b) : a = b := by
  apply String.ext
  exact List.append_cancel_left (congrArg String.data h)

theorem string_append_cancel_right (a b t : String) (h : a ++ t = b ++ t) : a = b := by
  apply String.ext
  exact List.append_cancel_right (congrArg String.data h)

/-- Claim C3 as amended: the PUT route identifier embeds the
caller-supplied id, so for every credential and every two distinct item
ids the route identifiers — and hence the strings fed to the key
derivation — are distinct: each resource id is counted separately
rather than against one shared per-endpoint counter. -/
theorem c3_route_embeds_id (id1 id2 token : String) (h : id1 ≠ id2) :
    PUT_VAULT_ITEM_ROUTE ++ id1 ≠ PUT_VAULT_ITEM_ROUTE ++ id2 ∧
    (PUT_VAULT_ITEM_ROUTE ++ id1) ++ token ≠ (PUT_VAULT_ITEM_ROUTE ++ id2) ++ token := by
  constructor
  · intro he
    exact h (string_append_cancel_left _ _ _ he)
  · intro he
    exact h (string_append_cancel_left _ _ _ (string_append_cancel_right _ _ _ he))

/-- Witness for C3 (amended) at ids "1", "2" and credential "tok". -/
theorem c3_route_embeds_id_witness :
    ("1" : String) ≠ "2" ∧
    (PUT_VAULT_ITEM_ROUTE ++ "1" ≠ PUT_VAULT_ITEM_ROUTE ++ "2" ∧
     (PUT_VAULT_ITEM_ROUTE ++ "1") ++ "tok" ≠ (PUT_VAULT_ITEM_ROUTE ++ "2") ++ "tok") :=
  ⟨by decide, c3_route_embeds_id "1" "2" "tok" (by decide)⟩

/-- Counterexample to claim C5: the key is the digest of the plain
concatenation `route + bearer_token` with no separator, so the distinct
pairs (route "A", credential "BC") and (route "AB", credential "C"),
whose concatenations agree, derive the same key. -/
theorem c5_no_separator_counterexample :
    (("A" : String), ("BC" : String)) ≠ (("AB" : String), ("C" : String)) ∧
    "A" ++ "BC" = "AB" ++ "C" ∧
    hashedKey "A" "BC" = hashedKey "AB" "C" :=
  ⟨by decide, rfl, rfl⟩

/-- Claim C5 as amended: key derivation hashes the plain concatenation of
route and credential with no separator, so any two pairs whose
concatenations coincide derive the same key (route/credential boundary
collisions are possible). -/
theorem c5_concat_collision (r1 c1 r2 c2 : String) (h : r1 ++ c1 = r2 ++ c2) :
    hashedKey r1 c1 = hashedKey r2 c2 := by
  unfold hashedKey
  rw [h]

/-- Witness for C5 (amended) at the boundary-collision pair. -/
theorem c5_concat_collision_witness :
    "A" ++ "BC" = "AB" ++ "C" ∧ hashedKey "A" "BC" = hashedKey "AB" "C" :=
  ⟨rfl, c5_concat_collision "A" "BC" "AB" "C" rfl⟩

/-- Claim C6: when a record exists, is unexpired (`expiry > now`) and has
`remaining = 0`, `log_usage` returns Deny with retryAfter the record's
current expiry, and the store is returned completely unchanged. -/
theorem c6_deny_no_mutation (s : Store) (route token : String) (rl : RateLimit)
    (now c e : Int) (hlook : lookupStore s (hashedKey route token) = some (c, e))
    (hexp : now < e) (hc : c = 0) :
    log_usage s route token rl now = (Except.error ⟨e⟩, s) :=
  log_usage_deny s route token rl now c e hlook (by omega) (by omega)

/-- Witness for C6 on a concrete exhausted, unexpired record. -/
theorem c6_deny_no_mutation_witness :
    lookupStore [(hashedKey "POST /vault" "tok", (0, 60))] (hashedKey "POST /vault" "tok")
        = some (0, 60) ∧ (10 : Int) < 60 ∧
    log_usage [(hashedKey "POST /vault" "tok", (0, 60))] "POST /vault" "tok"
        (RateLimit.new 3) 10
      = (Except.error ⟨60⟩, [(hashedKey "POST /vault" "tok", (0, 60))]) :=
  ⟨by simp [lookupStore], by norm_num,
   c6_deny_no_mutation [(hashedKey "POST /vault" "tok", (0, 60))] "POST /vault" "tok"
     (RateLimit.new 3) 10 0 60 (by simp [lookupStore]) (by norm_num) rfl⟩

/-- Counterexample to claim C10: at `limit = -2147483648` (`i32::MIN`)
the first call for a fresh key still returns Allow, but `limit - 1`
wraps (release-build semantics; a debug build would panic), so the
remaining value carried is `2147483647`, not a negative number. -/
theorem c10_min_limit_counterexample :
    (log_usage [] "POST /vault" "tok" (RateLimit.new (-2147483648)) 0).1
      = Except.ok (2147483647, 60) ∧ ¬ ((2147483647 : Int) < 0) :=
  ⟨rfl, by norm_num⟩

/-- Claim C10 as amended: neither `RateLimit::new` nor `log_usage`
validates the limit; the first call for an unseen key always returns
Allow with remaining `limit - 1` (wrapped), and for every non-positive
limit strictly above `i32::MIN` that remaining value is negative,
violating the `[0, limit-1]` range. -/
theorem c10_no_validation (s : Store) (route token : String) (limit now : Int)
    (hfresh : lookupStore s (hashedKey route token) = none) :
    (log_usage s route token (RateLimit.new limit) now).1
        = Except.ok (sub32 limit 1, now + 60) ∧
    (RateLimit.new limit).limit = limit ∧
    (-2147483648 < limit → limit ≤ 0 → sub32 limit 1 < 0) := by
  refine ⟨?_, rfl, ?_⟩
  · rw [log_usage_fresh s route token (RateLimit.new limit) now hfresh]
    rfl
  · intro h1 h2
    unfold sub32 wrap32
    omega

/-- Witness for C10 (amended) at `limit = 0` on an empty store. -/
theorem c10_no_validation_witness :
    lookupStore [] (hashedKey "POST /vault" "tok") = none ∧
    ((log_usage [] "POST /vault" "tok" (RateLimit.new 0) 5).1
        = Except.ok (sub32 0 1, 5 + 60) ∧
     (RateLimit.new 0).limit = 0 ∧
     (-2147483648 < (0 : Int) → (0 : Int) ≤ 0 → sub32 0 1 < 0)) :=
  ⟨rfl, c10_no_validation [] "POST /vault" "tok" 0 5 rfl⟩

/-- Claim C7: with a positive limit (in `i32` range), if the record for a
key is absent or has `remaining ∈ [0, limit-1]`, then after any
`log_usage` call with that policy the record for the key (created,
reset, decremented, or left alone) still has `remaining ∈ [0, limit-1]`:
remaining is never negative and never ≥ limit. -/
theorem c7_remaining_range (s : Store) (route token : String) (limit d now : Int)
    (hl : 1 ≤ limit) (hmax : limit ≤ 2147483647)
    (hpre : ∀ c e, lookupStore s (hashedKey route token) = some (c, e) →
      0 ≤ c ∧ c ≤ limit - 1) :
    ∀ c e, lookupStore (log_usage s route token ⟨limit, d⟩ now).2 (hashedKey route token)
        = some (c, e) → 0 ≤ c ∧ c ≤ limit - 1 := by
  intro c e hpost
  cases hlook : lookupStore s (hashedKey route token) with
  | none =>
    simp only [log_usage_fresh s route token ⟨limit, d⟩ now hlook,
      lookupStore_setStore_self, Option.some.injEq, Prod.mk.injEq] at hpost
    rw [sub32_one limit (by omega) hmax] at hpost
    omega
  | some p =>
    obtain ⟨c0, e0⟩ := p
    obtain ⟨hc0, hc1⟩ := hpre c0 e0 hlook
    by_cases he : e0 < now
    · simp only [log_usage_refresh s route token ⟨limit, d⟩ now c0 e0 hlook he,
        lookupStore_setStore_self, Option.some.injEq, Prod.mk.injEq] at hpost
      rw [sub32_one limit (by omega) hmax] at hpost
      omega
    · by_cases hcpos : 0 < c0
      · simp only [log_usage_decrement s route token ⟨limit, d⟩ now c0 e0 hlook he hcpos,
          lookupStore_setStore_self, Option.some.injEq, Prod.mk.injEq] at hpost
        rw [sub32_one c0 hcpos (by omega)] at hpost
        omega
      · simp only [log_usage_deny s route token ⟨limit, d⟩ now c0 e0 hlook he hcpos] at hpost
        rw [hlook] at hpost
        simp only [Option.some.injEq, Prod.mk.injEq] at hpost
        omega

/-- Witness for C7 with limit 3 on an empty store (creation case). -/
theorem c7_remaining_range_witness :
    (∀ c e, lookupStore [] (hashedKey "POST /vault" "tok") = some (c, e) →
      0 ≤ c ∧ c ≤ 3 - 1) ∧
    (∀ c e, lookupStore (log_usage [] "POST /vault" "tok" ⟨3, 60⟩ 0).2
        (hashedKey "POST /vault" "tok") = some (c, e) → 0 ≤ c ∧ c ≤ 3 - 1) :=
  ⟨(fun _ _ h => nomatch h),
   c7_remaining_range [] "POST /vault" "tok" 3 60 0 (by omega) (by norm_num)
     (fun _ _ h => nomatch h)⟩

/-! Frame lemmas: a call touches only its own derived key. -/

theorem log_usage_frame (s : Store) (route token : String) (rl : RateLimit) (now : Int)
    (k : String) (hk : k ≠ hashedKey route token) :
    lookupStore (log_usage s route token rl now).2 k = lookupStore s k := by
  cases hlook : lookupStore s (hashedKey route token) with
  | none =>
    simp only [log_usage_fresh s route token rl now hlook]
    exact lookupStore_setStore_ne _ _ _ _ hk
  | some p =>
    obtain ⟨c, e⟩ := p
    by_cases he : e < now
    · simp only [log_usage_refresh s route token rl now c e hlook he]
      exact lookupStore_setStore_ne _ _ _ _ hk
    · by_cases hc : 0 < c
      · simp only [log_usage_decrement s route token rl now c e hlook he hc]
        exact lookupStore_setStore_ne _ _ _ _ hk
      · simp only [log_usage_deny s route token rl now c e hlook he hc]

/-- The decision of `log_usage` depends on the store only through the
record at its own derived key. -/
theorem log_usage_result_congr (s s2 : Store) (route token : String) (rl : RateLimit)
    (now : Int)
    (h : lookupStore s (hashedKey route token) = lookupStore s2 (hashedKey route token)) :
    (log_usage s route token rl now).1 = (log_usage s2 route token rl now).1 := by
  cases hlook : lookupStore s2 (hashedKey route token) with
  | none =>
    simp only [log_usage_fresh s route token rl now (h.trans hlook),
      log_usage_fresh s2 route token rl now hlook]
  | some p =>
    obtain ⟨c, e⟩ := p
    by_cases he : e < now
    · simp only [log_usage_refresh s route token rl now c e (h.trans hlook) he,
        log_usage_refresh s2 route token rl now c e hlook he]
    · by_cases hc : 0 < c
      · simp only [log_usage_decrement s route token rl now c e (h.trans hlook) he hc,
          log_usage_decrement s2 route token rl now c e hlook he hc]
      · simp only [log_usage_deny s route token rl now c e (h.trans hlook) he hc,
          log_usage_deny s2 route token rl now c e hlook he hc]

theorem runCalls_frame (route token : String) (rl : RateLimit) (ts : List Int) :
    ∀ (s : Store) (k : String), k ≠ hashedKey route token →
      lookupStore (runCalls route token rl s ts) k = lookupStore s k := by
  induction ts with
  | nil => intro s k _; rfl
  | cons t ts ih =>
    intro s k hk
    rw [show runCalls route token rl s (t :: ts)
          = runCalls route token rl (log_usage s route token rl t).2 ts from rfl]
    rw [ih _ k hk, log_usage_frame s route token rl t k hk]

/-- Claim C8: a call sequence for one (route, credential) pair mutates at
most the record of its own derived key: for a second pair with a
distinct derived key, the second pair's record and the decision of a
subsequent call for it are exactly as if the first pair's calls had
never happened. -/
theorem c8_isolation (s : Store) (r1 t1 r2 t2 : String) (rl1 rl2 : RateLimit)
    (times : List Int) (now : Int)
    (hkeys : hashedKey r2 t2 ≠ hashedKey r1 t1) :
    lookupStore (runCalls r1 t1 rl1 s times) (hashedKey r2 t2)
        = lookupStore s (hashedKey r2 t2) ∧
    (log_usage (runCalls r1 t1 rl1 s times) r2 t2 rl2 now).1
        = (log_usage s r2 t2 rl2 now).1 := by
  have hframe := runCalls_frame r1 t1 rl1 times s (hashedKey r2 t2) hkeys
  exact ⟨hframe, log_usage_result_congr _ _ _ _ _ _ hframe⟩

/-- Witness for C8: three exhausting calls for ("POST /vault", "X") leave
("POST /vault", "Y") untouched. -/
theorem c8_isolation_witness :
    hashedKey "POST /vault" "Y" ≠ hashedKey "POST /vault" "X" ∧
    (lookupStore (runCalls "POST /vault" "X" (RateLimit.new 3) [] [0, 0, 0, 0])
        (hashedKey "POST /vault" "Y")
      = lookupStore [] (hashedKey "POST /vault" "Y") ∧
    (log_usage (runCalls "POST /vault" "X" (RateLimit.new 3) [] [0, 0, 0, 0])
        "POST /vault" "Y" (RateLimit.new 3) 0).1
      = (log_usage [] "POST /vault" "Y" (RateLimit.new 3) 0).1) :=
  ⟨by decide,
   c8_isolation [] "POST /vault" "X" "POST /vault" "Y" (RateLimit.new 3) (RateLimit.new 3)
     [0, 0, 0, 0] 0 (by decide)⟩

/-! Interleaving model for claim C4: `log_usage` split at its atomic
`DashMap` operations. A held `get_mut` guard locks the entry, so the
whole `Some` branch of the source is one atomic step; but when `get_mut`
returns `None` no lock is held, and the `insert` in the `else` branch is
a separate atomic step — this is exactly the decomposition the source's
check-then-insert structure allows. -/

inductive ThreadState where
  | start : ThreadState
  | inserting : Int × Int → ThreadState
  | done : Except RateLimitedError (Int × Int) → ThreadState

/-- One atomic step of a thread executing `log_usage` against the shared
map. -/
def threadStep (route token : String) (rl : RateLimit) (now : Int) :
    ThreadState × Store → ThreadState × Store
  | (ThreadState.start, s) =>
    match lookupStore s (hashedKey route token) with
    | some (count, refresh_time) =>
      if refresh_time < now then
        (ThreadState.done (Except.ok (sub32 rl.limit 1, now + rl.duration)),
         setStore s (hashedKey route token) (sub32 rl.limit 1, now + rl.duration))
      else if count > 0 then
        (ThreadState.done (Except.ok (sub32 count 1, refresh_time)),
         setStore s (hashedKey route token) (sub32 count 1, refresh_time))
      else
        (ThreadState.done (Except.error ⟨refresh_time⟩), s)
    | none => (ThreadState.inserting (sub32 rl.limit 1, now + rl.duration), s)
  | (ThreadState.inserting v, s) =>
    (ThreadState.done (Except.ok v), setStore s (hashedKey route token) v)
  | (ThreadState.done r, s) => (ThreadState.done r, s)

/-- Run two threads A and B (same route, token, policy and time) under a
schedule: `true` steps A, `false` steps B. -/
def runSchedule (route token : String) (rl : RateLimit) (now : Int) :
    List Bool → ThreadState × ThreadState × Store → ThreadState × ThreadState × Store
  | [], st => st
  | b :: rest, (ta, tb, s) =>
    if b then
      let r := threadStep route token rl now (ta, s)
      runSchedule route token rl now rest (r.1, tb, r.2)
    else
      let r := threadStep route token rl now (tb, s)
      runSchedule route token rl now rest (ta, r.1, r.2)

/-- Sanity check tying the model to the sequential code: a thread that
runs to completion without interference computes exactly `log_usage`. -/
theorem threadStep_sequential (route token : String) (rl : RateLimit) (now : Int)
    (s : Store) :
    threadStep route token rl now (threadStep route token rl now (ThreadState.start, s))
      = (ThreadState.done (log_usage s route token rl now).1,
         (log_usage s route token rl now).2) := by
  cases hlook : lookupStore s (hashedKey route token) with
  | none =>
    simp only [threadStep, hlook, log_usage_fresh s route token rl now hlook]
  | some p =>
    obtain ⟨c, e⟩ := p
    by_cases he : e < now
    · simp only [threadStep, hlook, log_usage_refresh s route token rl now c e hlook he,
        if_pos he]
    · by_cases hc : 0 < c
      · simp only [threadStep, hlook, if_neg he,
          log_usage_decrement s route token rl now c e hlook he hc, gt_iff_lt, if_pos hc]
      · simp only [threadStep, hlook, if_neg he, gt_iff_lt, if_neg hc,
          log_usage_deny s route token rl now c e hlook he hc]

/-- Claim C4 fails on the code: in the schedule where threads A and B
both execute `get_mut` on the unseen key before either executes the
`insert` of the `else` branch, both win the create race and both return
Allow with remaining = limit - 1 = 2 — so with limit 3 the remaining
value 2 is produced twice, and more than `limit` requests can be
allowed in one window. The claimed atomicity of the create branch does
not hold because the source holds no lock between `get_mut` returning
`None` and the `insert`. -/
theorem c4_create_race :
    (runSchedule "POST /vault" "tok" (RateLimit.new 3) 0 [true, false, true, false]
        (ThreadState.start, ThreadState.start, [])).1
      = ThreadState.done (Except.ok (2, 60)) ∧
    (runSchedule "POST /vault" "tok" (RateLimit.new 3) 0 [true, false, true, false]
        (ThreadState.start, ThreadState.start, [])).2.1
      = ThreadState.done (Except.ok (2, 60)) :=
  ⟨rfl, rfl⟩

/-! Partial results about key derivation (claim C9): `hashedKey` is a
pure function, so determinism is definitional; the digest is always a
64-character string, so the derived key differs from any route or
credential whose length is not 64. Whether it can ever equal a
64-character input is the (open) fixed-point question for SHA-256. -/

theorem beBytes_length (n : Nat) : ∀ v : Nat, (Sha256.beBytes n v).length = n := by
  induction n with
  | zero => intro v; rfl
  | succ n ih => intro v; simp [Sha256.beBytes, ih]

theorem flatMap_pair_length (l : List Nat) (f g : Nat → Char) :
    (l.flatMap (fun b => [f b, g b])).length = 2 * l.length := by
  induction l with
  | nil => rfl
  | cons b l ih =>
    simp only [List.flatMap_cons, List.length_append, List.length_cons, List.length_nil, ih]
    omega

theorem wordHex_length (w : Nat) : (Sha256.wordHex w).length = 8 := by
  unfold Sha256.wordHex
  rw [flatMap_pair_length, beBytes_length]

theorem digest_length (s : String) : (Sha256.digest s).length = 64 := by
  unfold Sha256.digest
  simp [String.length, List.flatMap_cons, wordHex_length]

theorem hashedKey_ne_of_length (route token x : String) (h : x.length ≠ 64) :
    hashedKey route token ≠ x := by
  intro he
  apply h
  rw [← he, hashedKey]
  exact digest_length _

end RateLimitedService
